import Mathlib

/-!
BankApplication: the account store, its HTTP handlers and the client cache.

A shallow embedding of `Backend/index.js` (the in-memory `accounts` array and the
handlers of `/api/accounts`) and of the three mutating handlers of
`Frontend/src/components/MyYellowAi/MyYellowAiProject.js`.

Modelling conventions.

* A request-body field is a `JsValue`: what `express.json()` can produce for a
  key, or `undefined` when the key is absent. JSON numbers are rationals; no
  handler computes with a field, it only tests truthiness, compares with
  `undefined`, and stores.
* Record ids are integers. `Math.max(...) + 1` is exact integer arithmetic
  (exact in JavaScript below 2^53).
* A handler takes the store before the call and returns the response together
  with the store after the call.
* The route parameter is given as the result of `parseInt(req.params.id)`:
  `some n` for a number, `none` for `NaN` (which is `===` to nothing).
-/

namespace BankApplication

/-- A JavaScript value as it can appear in a parsed JSON body. `undefined` is the
value of a key that the body does not have; `compound` is an array or an object,
carried by its JSON text. -/
inductive JsValue where
  | undefined
  | null
  | bool (b : Bool)
  | number (n : Rat)
  | string (s : String)
  | compound (json : String)
  deriving DecidableEq

/-- JavaScript truthiness, the test behind `!x` and `if (x)`. -/
def truthy : JsValue → Bool
  | .undefined => false
  | .null => false
  | .bool b => b
  | .number n => n != 0
  | .string s => s != ""
  | .compound _ => true

/-- An element of the `accounts` array. -/
structure Account where
  id : Int
  name : JsValue
  balance : JsValue
  email : JsValue
  deriving DecidableEq

/-- The fields the handlers destructure from `req.body`. -/
structure Body where
  name : JsValue
  balance : JsValue
  email : JsValue
  deriving DecidableEq

/-- The JSON envelope of a response together with its HTTP status; `data` is
`none` when the envelope has no `data` key. -/
structure Response (α : Type) where
  status : Nat
  success : Bool
  message : String
  data : Option α
  deriving DecidableEq

/-- The initial value of `accounts` (index.js, lines 13-16). -/
def accounts : List Account :=
  [ { id := 1, name := .string "John Doe", balance := .number 5000,
      email := .string "john@example.com" },
    { id := 2, name := .string "Jane Smith", balance := .number 7500,
      email := .string "jane@example.com" } ]

/-- The callback `a => a.id === parseInt(req.params.id)`. -/
def idMatches (param : Option Int) (a : Account) : Bool :=
  match param with
  | none => false
  | some n => a.id == n

/-- `Array.prototype.findIndex`; `none` stands for `-1`. -/
def findIndex (p : Account → Bool) : List Account → Option Nat
  | [] => none
  | a :: rest => if p a then some 0 else (findIndex p rest).map (· + 1)

/-- The array after the object returned by `find` has been assigned to: the first
element satisfying `p` now holds `updated`, every other slot is untouched. -/
def assignFound (p : Account → Bool) (updated : Account) : List Account → List Account
  | [] => []
  | a :: rest => if p a then updated :: rest else a :: assignFound p updated rest

/-- The 404 envelope shared by the three by-id handlers. -/
def notFound : Response Account :=
  { status := 404, success := false, message := "Account not found", data := none }

/-- The handler of `GET /api/accounts`. -/
def getAccounts (store : List Account) : Response (List Account) :=
  { status := 200, success := true, message := "Fetched all accounts", data := some store }

/-- The handler of `GET /api/accounts/:id`. -/
def getAccount (store : List Account) (param : Option Int) : Response Account :=
  match store.find? (idMatches param) with
  | none => notFound
  | some account =>
    { status := 200, success := true, message := "Account retrieved", data := some account }

/-- The id expression `accounts.length > 0 ? Math.max(...accounts.map(a => a.id)) + 1 : 1`. -/
def nextId : List Account → Int
  | [] => 1
  | a :: rest => (rest.map (·.id)).foldl max a.id + 1

/-- The handler of `POST /api/accounts`. -/
def postAccount (store : List Account) (body : Body) : Response Account × List Account :=
  if !truthy body.name || body.balance == .undefined || !truthy body.email then
    ({ status := 400, success := false,
       message := "Please provide name, balance, and email", data := none }, store)
  else
    let newAccount : Account :=
      { id := nextId store, name := body.name, balance := body.balance, email := body.email }
    ({ status := 201, success := true,
       message := "Account created successfully", data := some newAccount },
     store ++ [newAccount])

/-- The three conditional assignments of the `PUT` handler (index.js, lines 83-85). -/
def applyBody (account : Account) (body : Body) : Account :=
  let a1 := if truthy body.name then { account with name := body.name } else account
  let a2 := if body.balance != .undefined then { a1 with balance := body.balance } else a1
  if truthy body.email then { a2 with email := body.email } else a2

/-- The handler of `PUT /api/accounts/:id`. -/
def putAccount (store : List Account) (param : Option Int) (body : Body) :
    Response Account × List Account :=
  match store.find? (idMatches param) with
  | none => (notFound, store)
  | some account =>
    let updated := applyBody account body
    ({ status := 200, success := true,
       message := "Account updated successfully", data := some updated },
     assignFound (idMatches param) updated store)

/-- The handler of `DELETE /api/accounts/:id`: `splice(index, 1)` removes the
element at `index` and `deletedAccount[0]` is that element. -/
def deleteAccount (store : List Account) (param : Option Int) :
    Response Account × List Account :=
  match findIndex (idMatches param) store with
  | none => (notFound, store)
  | some index =>
    ({ status := 200, success := true,
       message := "Account deleted successfully", data := store.get? index },
     store.eraseIdx index)

/-! ## The client handlers

A client handler is run against the store: it takes the cached list, its form
state and the store, performs at most one request, and returns the cached list
and the store afterwards. `axios` resolves exactly for a 2xx status and throws
otherwise; the `catch` branches leave the cached list as it was.

`parseFloat` is a parameter: it gives the value the server reads for the key
`balance` after the JSON round trip (a number, or `null` for `NaN`). -/

/-- The client state `formData`. -/
structure FormData where
  name : JsValue
  balance : JsValue
  email : JsValue
  deriving DecidableEq

/-- Whether `axios` resolves the request: the status is 2xx. -/
def resolves {α : Type} (response : Response α) : Bool :=
  200 ≤ response.status && response.status < 300

/-- The cache update `setAccounts([...accounts, response.data.data])`. -/
def appendReturned (cache : List Account) (returned : Account) : List Account :=
  cache ++ [returned]

/-- The cache update
`setAccounts(accounts.map((acc) => (acc.id === editingId ? response.data.data : acc)))`. -/
def replaceReturned (cache : List Account) (editingId : Int) (returned : Account) :
    List Account :=
  cache.map (fun acc => if acc.id = editingId then returned else acc)

/-- The cache update `setAccounts(accounts.filter((acc) => acc.id !== id))`. -/
def filterDeleted (cache : List Account) (id : Int) : List Account :=
  cache.filter (fun acc => acc.id != id)

/-- The body `handleCreateAccount` posts. -/
def createBody (parseFloat : JsValue → JsValue) (formData : FormData) : Body :=
  { name := formData.name, balance := parseFloat formData.balance, email := formData.email }

/-- The body `handleUpdateAccount` puts; a key whose value is `undefined` is not
serialised, so the server reads `undefined` for it. -/
def updateBody (parseFloat : JsValue → JsValue) (formData : FormData) : Body :=
  { name := formData.name,
    balance := if truthy formData.balance then parseFloat formData.balance else .undefined,
    email := formData.email }

/-- The handler `handleCreateAccount`: the cached list and the store after the
call. Every resolved response of the server carries a record; the branch for a
response without one leaves the cached list as it was. -/
def handleCreateAccount (parseFloat : JsValue → JsValue) (cache : List Account)
    (formData : FormData) (store : List Account) : List Account × List Account :=
  if !truthy formData.name || !truthy formData.balance || !truthy formData.email then
    (cache, store)
  else
    let result := postAccount store (createBody parseFloat formData)
    if resolves result.1 then
      match result.1.data with
      | some returned => (appendReturned cache returned, result.2)
      | none => (cache, result.2)
    else (cache, result.2)

/-- The handler `handleUpdateAccount`; `editingId` is `none` for `null`, and
`!editingId` also holds for the number 0. -/
def handleUpdateAccount (parseFloat : JsValue → JsValue) (cache : List Account)
    (editingId : Option Int) (formData : FormData) (store : List Account) :
    List Account × List Account :=
  match editingId with
  | none => (cache, store)
  | some id =>
    if id = 0 then (cache, store)
    else
      let result := putAccount store (some id) (updateBody parseFloat formData)
      if resolves result.1 then
        match result.1.data with
        | some returned => (replaceReturned cache id returned, result.2)
        | none => (cache, result.2)
      else (cache, result.2)

/-- The handler `handleDeleteAccount`. -/
def handleDeleteAccount (cache : List Account) (id : Int) (store : List Account) :
    List Account × List Account :=
  let result := deleteAccount store (some id)
  if resolves result.1 then (filterDeleted cache id, result.2) else (cache, result.2)

/-! ## Sequences of requests -/

/-- A request to one of the five account routes. -/
inductive Request where
  | list
  | get (param : Option Int)
  | create (body : Body)
  | update (param : Option Int) (body : Body)
  | delete (param : Option Int)
  deriving DecidableEq

/-- The store after the server has handled one request. -/
def handle (store : List Account) : Request → List Account
  | .list => store
  | .get _ => store
  | .create body => (postAccount store body).2
  | .update param body => (putAccount store param body).2
  | .delete param => (deleteAccount store param).2

/-- The store after a sequence of requests, handled one after the other. -/
def run (store : List Account) (requests : List Request) : List Account :=
  requests.foldl handle store

/-- The id in the record a request returns with status 201, if it does. -/
def createdId (store : List Account) : Request → Option Int
  | .create body =>
    if (postAccount store body).1.status = 201 then
      (postAccount store body).1.data.map (·.id)
    else none
  | _ => none

/-- The ids returned by the successful creations of a sequence of requests, in
the order of the requests. -/
def createdIds : List Account → List Request → List Int
  | _, [] => []
  | store, request :: rest =>
    (createdId store request).toList ++ createdIds (handle store request) rest

/-- Whether a request is a `DELETE`. -/
def Request.isDelete : Request → Bool
  | .delete _ => true
  | _ => false

/-! ## Properties used in the statements -/

/-- No two records of the list share an id. -/
def UniqueIds (store : List Account) : Prop :=
  (store.map (·.id)).Nodup

instance (store : List Account) : Decidable (UniqueIds store) := by
  unfold UniqueIds; infer_instance

/-- A field that is empty or absent: the key is missing, or its value is `null`,
`false`, the number 0 or the empty text. -/
def EmptyOrAbsent (v : JsValue) : Prop :=
  v = .undefined ∨ v = .null ∨ v = .bool false ∨ v = .number 0 ∨ v = .string ""

instance (v : JsValue) : Decidable (EmptyOrAbsent v) := by
  unfold EmptyOrAbsent; infer_instance

/-- A field that is text when the key is there. -/
def TextOrAbsent (v : JsValue) : Prop :=
  v = .undefined ∨ ∃ s, v = .string s

/-- A stored field holding a non-empty text. -/
def NonEmptyText (v : JsValue) : Prop :=
  ∃ s, v = .string s ∧ s ≠ ""

/-- The fields `name` and `email` of a request are text when present. -/
def Request.textual : Request → Prop
  | .create body => TextOrAbsent body.name ∧ TextOrAbsent body.email
  | .update _ body => TextOrAbsent body.name ∧ TextOrAbsent body.email
  | _ => True

/-! ## Lemmas on the id expression -/

theorem foldl_max_init_le (l : List Int) (x : Int) : x ≤ l.foldl max x := by
  induction l generalizing x with
  | nil => simp
  | cons y ys ih =>
    simp only [List.foldl_cons]
    exact le_trans (le_max_left x y) (ih (max x y))

theorem foldl_max_mem_le (l : List Int) (x y : Int) (hy : y ∈ l) : y ≤ l.foldl max x := by
  induction l generalizing x with
  | nil => simp at hy
  | cons z zs ih =>
    simp only [List.foldl_cons]
    rcases List.mem_cons.mp hy with h | h
    · subst h
      exact le_trans (le_max_right x y) (foldl_max_init_le zs (max x y))
    · exact ih (max x z) h

theorem foldl_max_attained (l : List Int) (x : Int) :
    l.foldl max x = x ∨ l.foldl max x ∈ l := by
  induction l generalizing x with
  | nil => simp
  | cons z zs ih =>
    simp only [List.foldl_cons]
    rcases ih (max x z) with h | h
    · rcases max_choice x z with hm | hm
      · left; rw [h, hm]
      · right; rw [h, hm]; exact List.mem_cons_self z zs
    · right; exact List.mem_cons_of_mem z h

theorem nextId_gt (store : List Account) (a : Account) (ha : a ∈ store) :
    a.id < nextId store := by
  cases store with
  | nil => simp at ha
  | cons b rest =>
    simp only [nextId]
    rcases List.mem_cons.mp ha with h | h
    · subst h
      have := foldl_max_init_le (rest.map (·.id)) a.id
      omega
    · have := foldl_max_mem_le (rest.map (·.id)) b.id a.id (List.mem_map_of_mem _ h)
      omega

theorem nextId_succ_of_mem (store : List Account) (hne : store ≠ []) :
    ∃ a ∈ store, nextId store = a.id + 1 := by
  cases store with
  | nil => exact absurd rfl hne
  | cons b rest =>
    simp only [nextId]
    rcases foldl_max_attained (rest.map (·.id)) b.id with h | h
    · exact ⟨b, List.mem_cons_self b rest, by rw [h]⟩
    · obtain ⟨a, ha, hid⟩ := List.mem_map.mp h
      exact ⟨a, List.mem_cons_of_mem b ha, by rw [← hid]⟩

theorem postAccount_of_valid (store : List Account) (body : Body)
    (hname : truthy body.name = true) (hbalance : body.balance ≠ .undefined)
    (hemail : truthy body.email = true) :
    postAccount store body =
      ({ status := 201, success := true, message := "Account created successfully",
         data := some { id := nextId store, name := body.name, balance := body.balance,
                        email := body.email } },
       store ++ [{ id := nextId store, name := body.name, balance := body.balance,
                   email := body.email }]) := by
  simp [postAccount, hname, hbalance, hemail]

theorem postAccount_of_invalid (store : List Account) (body : Body)
    (h : truthy body.name = false ∨ body.balance = .undefined ∨ truthy body.email = false) :
    postAccount store body =
      ({ status := 400, success := false,
         message := "Please provide name, balance, and email", data := none }, store) := by
  rcases h with h | h | h <;> simp [postAccount, h]

theorem truthy_eq_false_iff (v : JsValue) : truthy v = false ↔ EmptyOrAbsent v := by
  cases v <;> simp [truthy, EmptyOrAbsent]

/-! ## Lemmas on lookup by id -/

theorem idMatches_some (id : Int) (a : Account) : idMatches (some id) a = true ↔ a.id = id := by
  simp [idMatches]

/-- A store holding a record with the id splits at the first such record. -/
theorem exists_first_with_id (store : List Account) (id : Int)
    (h : ∃ a ∈ store, a.id = id) :
    ∃ pre account post, store = pre ++ account :: post ∧ account.id = id ∧
      ∀ a ∈ pre, a.id ≠ id := by
  induction store with
  | nil => obtain ⟨a, ha, _⟩ := h; simp at ha
  | cons b rest ih =>
    by_cases hb : b.id = id
    · exact ⟨[], b, rest, rfl, hb, by simp⟩
    · have h2 : ∃ a ∈ rest, a.id = id := by
        obtain ⟨a, ha, hid⟩ := h
        rcases List.mem_cons.mp ha with hab | hab
        · subst hab; exact absurd hid hb
        · exact ⟨a, hab, hid⟩
      obtain ⟨pre, account, post, hs, hid, hpre⟩ := ih h2
      refine ⟨b :: pre, account, post, by rw [hs]; rfl, hid, ?_⟩
      intro a ha
      rcases List.mem_cons.mp ha with hab | hab
      · subst hab; exact hb
      · exact hpre a hab

theorem find?_first (param : Option Int) (pre post : List Account) (account : Account)
    (hpre : ∀ a ∈ pre, idMatches param a = false) (hacc : idMatches param account = true) :
    (pre ++ account :: post).find? (idMatches param) = some account := by
  induction pre with
  | nil => simp [hacc]
  | cons b rest ih =>
    have hb : idMatches param b = false := hpre b (List.mem_cons_self b rest)
    simp only [List.cons_append, List.find?_cons, hb]
    exact ih (fun a ha => hpre a (List.mem_cons_of_mem b ha))

theorem find?_absent (param : Option Int) (store : List Account)
    (h : ∀ a ∈ store, idMatches param a = false) :
    store.find? (idMatches param) = none := by
  rw [List.find?_eq_none]
  intro a ha
  simp [h a ha]

theorem findIndex_first (param : Option Int) (pre post : List Account) (account : Account)
    (hpre : ∀ a ∈ pre, idMatches param a = false) (hacc : idMatches param account = true) :
    findIndex (idMatches param) (pre ++ account :: post) = some pre.length := by
  induction pre with
  | nil => simp [findIndex, hacc]
  | cons b rest ih =>
    have hb : idMatches param b = false := hpre b (List.mem_cons_self b rest)
    have hrest := ih (fun a ha => hpre a (List.mem_cons_of_mem b ha))
    rw [List.cons_append]
    simp [findIndex, hb, hrest]

theorem findIndex_absent (param : Option Int) (store : List Account)
    (h : ∀ a ∈ store, idMatches param a = false) :
    findIndex (idMatches param) store = none := by
  induction store with
  | nil => rfl
  | cons b rest ih =>
    have hb : idMatches param b = false := h b (List.mem_cons_self b rest)
    simp only [findIndex, hb]
    rw [ih (fun a ha => h a (List.mem_cons_of_mem b ha))]
    rfl

theorem assignFound_first (param : Option Int) (updated : Account) (pre post : List Account)
    (account : Account) (hpre : ∀ a ∈ pre, idMatches param a = false)
    (hacc : idMatches param account = true) :
    assignFound (idMatches param) updated (pre ++ account :: post) = pre ++ updated :: post := by
  induction pre with
  | nil => simp [assignFound, hacc]
  | cons b rest ih =>
    have hb : idMatches param b = false := hpre b (List.mem_cons_self b rest)
    have hrest := ih (fun a ha => hpre a (List.mem_cons_of_mem b ha))
    rw [List.cons_append]
    simp [assignFound, hb, hrest]

theorem eraseIdx_first (pre post : List Account) (account : Account) :
    (pre ++ account :: post).eraseIdx pre.length = pre ++ post := by
  induction pre with
  | nil => rfl
  | cons b rest ih => simp [List.eraseIdx_cons_succ, ih]

theorem get?_first (pre post : List Account) (account : Account) :
    (pre ++ account :: post).get? pre.length = some account := by
  induction pre with
  | nil => rfl
  | cons b rest ih => simpa using ih

theorem applyBody_id (account : Account) (body : Body) :
    (applyBody account body).id = account.id := by
  unfold applyBody
  split_ifs <;> rfl

theorem applyBody_name (account : Account) (body : Body) :
    (applyBody account body).name = if truthy body.name then body.name else account.name := by
  unfold applyBody
  split_ifs <;> rfl

theorem applyBody_balance (account : Account) (body : Body) :
    (applyBody account body).balance =
      if body.balance = .undefined then account.balance else body.balance := by
  unfold applyBody
  by_cases h : body.balance = .undefined <;> simp [h] <;> split_ifs <;> rfl

theorem applyBody_email (account : Account) (body : Body) :
    (applyBody account body).email = if truthy body.email then body.email else account.email := by
  unfold applyBody
  split_ifs <;> rfl

/-- The three by-id handlers on a store split at the first record with the id. -/
theorem getAccount_first (pre post : List Account) (account : Account) (id : Int)
    (hid : account.id = id) (hpre : ∀ a ∈ pre, a.id ≠ id) :
    getAccount (pre ++ account :: post) (some id) =
      { status := 200, success := true, message := "Account retrieved",
        data := some account } := by
  have h1 : ∀ a ∈ pre, idMatches (some id) a = false := fun a ha => by
    simpa [idMatches] using hpre a ha
  have h2 : idMatches (some id) account = true := (idMatches_some id account).mpr hid
  simp only [getAccount, find?_first (some id) pre post account h1 h2]

theorem putAccount_first (pre post : List Account) (account : Account) (id : Int)
    (body : Body) (hid : account.id = id) (hpre : ∀ a ∈ pre, a.id ≠ id) :
    putAccount (pre ++ account :: post) (some id) body =
      ({ status := 200, success := true, message := "Account updated successfully",
         data := some (applyBody account body) },
       pre ++ applyBody account body :: post) := by
  have h1 : ∀ a ∈ pre, idMatches (some id) a = false := fun a ha => by
    simpa [idMatches] using hpre a ha
  have h2 : idMatches (some id) account = true := (idMatches_some id account).mpr hid
  simp only [putAccount, find?_first (some id) pre post account h1 h2,
    assignFound_first (some id) _ pre post account h1 h2]

theorem deleteAccount_first (pre post : List Account) (account : Account) (id : Int)
    (hid : account.id = id) (hpre : ∀ a ∈ pre, a.id ≠ id) :
    deleteAccount (pre ++ account :: post) (some id) =
      ({ status := 200, success := true, message := "Account deleted successfully",
         data := some account }, pre ++ post) := by
  have h1 : ∀ a ∈ pre, idMatches (some id) a = false := fun a ha => by
    simpa [idMatches] using hpre a ha
  have h2 : idMatches (some id) account = true := (idMatches_some id account).mpr hid
  simp only [deleteAccount, findIndex_first (some id) pre post account h1 h2,
    eraseIdx_first, get?_first]

theorem getAccount_absent (store : List Account) (param : Option Int)
    (h : ∀ a ∈ store, idMatches param a = false) : getAccount store param = notFound := by
  simp only [getAccount, find?_absent param store h]

theorem putAccount_absent (store : List Account) (param : Option Int) (body : Body)
    (h : ∀ a ∈ store, idMatches param a = false) :
    putAccount store param body = (notFound, store) := by
  simp only [putAccount, find?_absent param store h]

theorem deleteAccount_absent (store : List Account) (param : Option Int)
    (h : ∀ a ∈ store, idMatches param a = false) :
    deleteAccount store param = (notFound, store) := by
  simp only [deleteAccount, findIndex_absent param store h]

/-! ## Creation -/

/-- C1. For every store and every body whose name and email are non-empty (truthy)
and whose balance key is present, the `POST` handler answers 201 with a record
carrying exactly the supplied name, balance and email; its id is 1 on an empty
store and otherwise one more than the id of some stored record and greater than
every stored id (the maximum plus one); the store afterwards is the previous
store with that record appended at the end. -/
theorem create_postcondition (store : List Account) (body : Body)
    (hname : truthy body.name = true) (hbalance : body.balance ≠ .undefined)
    (hemail : truthy body.email = true) :
    ∃ created : Account,
      postAccount store body =
        ({ status := 201, success := true, message := "Account created successfully",
           data := some created }, store ++ [created]) ∧
      created.name = body.name ∧ created.balance = body.balance ∧
      created.email = body.email ∧
      (store = [] → created.id = 1) ∧
      (store ≠ [] → (∃ a ∈ store, created.id = a.id + 1) ∧ ∀ a ∈ store, a.id < created.id) := by
  refine ⟨{ id := nextId store, name := body.name, balance := body.balance,
            email := body.email }, postAccount_of_valid store body hname hbalance hemail,
          rfl, rfl, rfl, ?_, ?_⟩
  · intro h; subst h; rfl
  · intro h
    exact ⟨nextId_succ_of_mem store h, fun a ha => nextId_gt store a ha⟩

/-- C1 at the seed, and at the store emptied by deleting both seed records, where
the created record gets id 1 again. -/
theorem create_postcondition_witness :
    (∃ created : Account,
      postAccount accounts ⟨.string "A", .number 0, .string "a@x.com"⟩ =
        ({ status := 201, success := true, message := "Account created successfully",
           data := some created }, accounts ++ [created]) ∧
      created.name = .string "A" ∧ created.balance = .number 0 ∧
      created.email = .string "a@x.com" ∧
      (accounts = [] → created.id = 1) ∧
      (accounts ≠ [] →
        (∃ a ∈ accounts, created.id = a.id + 1) ∧ ∀ a ∈ accounts, a.id < created.id)) ∧
    (postAccount accounts ⟨.string "A", .number 0, .string "a@x.com"⟩).1.data.map (·.id)
      = some 3 ∧
    (postAccount (run accounts [.delete (some 1), .delete (some 2)])
      ⟨.string "A", .number 0, .string "a@x.com"⟩).1.data.map (·.id) = some 1 :=
  ⟨create_postcondition accounts ⟨.string "A", .number 0, .string "a@x.com"⟩
    (by decide) (by decide) (by decide), by decide, by decide⟩

/-- C2. For every store and every body, the `POST` handler answers 400 exactly
when name is empty or absent, or email is empty or absent, or the balance key is
absent (for a name and email that are text or missing: exactly when one of them
is the empty text or missing, or balance is missing); every other body is
answered 201, in particular one with balance 0 and non-empty name and email; and
a 400 answer carries no record and leaves the store, hence its length, as it was. -/
theorem create_rejection (store : List Account) (body : Body) :
    ((postAccount store body).1.status = 400 ↔
      EmptyOrAbsent body.name ∨ EmptyOrAbsent body.email ∨ body.balance = .undefined) ∧
    (TextOrAbsent body.name → TextOrAbsent body.email →
      ((postAccount store body).1.status = 400 ↔
        body.name = .string "" ∨ body.name = .undefined ∨ body.email = .string "" ∨
        body.email = .undefined ∨ body.balance = .undefined)) ∧
    ((postAccount store body).1.status = 400 ∨ (postAccount store body).1.status = 201) ∧
    ((postAccount store body).1.status = 400 →
      (postAccount store body).1.success = false ∧ (postAccount store body).1.data = none ∧
      (postAccount store body).2 = store ∧
      (postAccount store body).2.length = store.length) ∧
    (truthy body.name = true → truthy body.email = true → body.balance = .number 0 →
      (postAccount store body).1.status = 201 ∧
      (postAccount store body).1.data.map (·.balance) = some (.number 0)) := by
  have key : (postAccount store body).1.status = 400 ↔
      truthy body.name = false ∨ body.balance = .undefined ∨ truthy body.email = false := by
    constructor
    · intro h
      by_contra hc
      push_neg at hc
      obtain ⟨h1, h2, h3⟩ := hc
      rw [postAccount_of_valid store body (by simpa using h1) h2 (by simpa using h3)] at h
      simp at h
    · intro h
      rw [postAccount_of_invalid store body h]
  refine ⟨?_, ?_, ?_, ?_, ?_⟩
  · rw [key, truthy_eq_false_iff, truthy_eq_false_iff]; tauto
  · intro hn he
    rw [key, truthy_eq_false_iff, truthy_eq_false_iff]
    rcases hn with hn | ⟨s, hn⟩ <;> rcases he with he | ⟨t, he⟩ <;>
      simp only [hn, he, EmptyOrAbsent, JsValue.string.injEq, reduceCtorEq, true_or, or_true,
        false_or, or_false, true_iff, iff_true]
    tauto
  · by_cases h : truthy body.name = false ∨ body.balance = .undefined ∨ truthy body.email = false
    · left; exact key.mpr h
    · right
      push_neg at h
      obtain ⟨h1, h2, h3⟩ := h
      rw [postAccount_of_valid store body (by simpa using h1) h2 (by simpa using h3)]
  · intro h
    rw [postAccount_of_invalid store body (key.mp h)]
    exact ⟨rfl, rfl, rfl, rfl⟩
  · intro h1 h3 h2
    rw [postAccount_of_valid store body h1 (by rw [h2]; simp) h3]
    exact ⟨rfl, by simp [h2]⟩

/-- C2 on the seed: an empty name is answered 400 and the store is unchanged; a
balance of 0 with non-empty name and email is answered 201 with id 3. -/
theorem create_rejection_witness :
    (postAccount accounts ⟨.string "", .number 10, .string "x@x.com"⟩).1.status = 400 ∧
    (postAccount accounts ⟨.string "", .number 10, .string "x@x.com"⟩).2 = accounts ∧
    (getAccounts (postAccount accounts ⟨.string "", .number 10, .string "x@x.com"⟩).2).data.map
      List.length = some 2 ∧
    (postAccount accounts ⟨.string "A", .number 0, .string "a@x.com"⟩).1.status = 201 ∧
    (postAccount accounts ⟨.string "A", .number 0, .string "a@x.com"⟩).1.data =
      some { id := 3, name := .string "A", balance := .number 0, email := .string "a@x.com" } :=
  have h := create_rejection accounts ⟨.string "", .number 10, .string "x@x.com"⟩
  have h400 := h.1.mpr (Or.inl (by decide))
  ⟨h400, (h.2.2.2.1 h400).2.2.1, by decide,
    ((create_rejection accounts ⟨.string "A", .number 0, .string "a@x.com"⟩).2.2.2.2
      (by decide) (by decide) rfl).1, by decide⟩

/-! ## Update -/

/-- C3 as stated fails: a name that is supplied as the empty text is neither
returned nor stored by `PUT`; record 1 of the seed keeps its name. -/
theorem update_empty_name_not_stored :
    (⟨.string "", .undefined, .undefined⟩ : Body).name ≠ .undefined ∧
    (putAccount accounts (some 1) ⟨.string "", .undefined, .undefined⟩).1.status = 200 ∧
    ¬ ((putAccount accounts (some 1) ⟨.string "", .undefined, .undefined⟩).1.data.map (·.name)
        = some (.string "")) ∧
    ¬ ((getAccount (putAccount accounts (some 1) ⟨.string "", .undefined, .undefined⟩).2
        (some 1)).data.map (·.name) = some (.string "")) ∧
    (getAccount (putAccount accounts (some 1) ⟨.string "", .undefined, .undefined⟩).2
        (some 1)).data.map (·.name) = some (.string "John Doe") := by
  decide

/-- C3, amended. For every store, every id that exists in it and every payload,
`PUT` answers 200 with the record it then stores under that id, in which name
(email) is the supplied value when that value is truthy, so a non-empty text,
and the prior value otherwise, and balance is the supplied value whenever the
key is present, without any validation: a balance of 0 is stored as 0, while a
name or email supplied as the empty text is skipped. -/
theorem update_overwrites_supplied (store : List Account) (id : Int) (body : Body)
    (h : ∃ a ∈ store, a.id = id) :
    ∃ prior updated : Account,
      getAccount store (some id) =
        { status := 200, success := true, message := "Account retrieved",
          data := some prior } ∧
      (putAccount store (some id) body).1 =
        { status := 200, success := true, message := "Account updated successfully",
          data := some updated } ∧
      getAccount (putAccount store (some id) body).2 (some id) =
        { status := 200, success := true, message := "Account retrieved",
          data := some updated } ∧
      updated.name = (if truthy body.name then body.name else prior.name) ∧
      updated.balance = (if body.balance = .undefined then prior.balance else body.balance) ∧
      updated.email = (if truthy body.email then body.email else prior.email) ∧
      (∀ s, s ≠ "" → body.name = .string s → updated.name = .string s) ∧
      (∀ s, s ≠ "" → body.email = .string s → updated.email = .string s) ∧
      (body.balance = .number 0 → updated.balance = .number 0) ∧
      (body.name = .string "" → updated.name = prior.name) ∧
      (body.email = .string "" → updated.email = prior.email) := by
  obtain ⟨pre, prior, post, hs, hid, hpre⟩ := exists_first_with_id store id h
  subst hs
  have hid2 : (applyBody prior body).id = id := by rw [applyBody_id]; exact hid
  refine ⟨prior, applyBody prior body, getAccount_first pre post prior id hid hpre, ?_, ?_,
    applyBody_name prior body, applyBody_balance prior body, applyBody_email prior body,
    ?_, ?_, ?_, ?_, ?_⟩
  · rw [putAccount_first pre post prior id body hid hpre]
  · rw [putAccount_first pre post prior id body hid hpre]
    exact getAccount_first pre post (applyBody prior body) id hid2 hpre
  · intro s hs hb
    rw [applyBody_name, hb]; simp [truthy, hs]
  · intro s hs hb
    rw [applyBody_email, hb]; simp [truthy, hs]
  · intro hb
    rw [applyBody_balance, hb]; simp
  · intro hb
    rw [applyBody_name, hb]; simp [truthy]
  · intro hb
    rw [applyBody_email, hb]; simp [truthy]

/-- C3, amended, on the seed: record 2 updated with an empty name, balance 0 and a
new email keeps its name and takes the balance 0 and the email. -/
theorem update_overwrites_supplied_witness :
    (∃ a ∈ accounts, a.id = 2) ∧
    putAccount accounts (some 2) ⟨.string "", .number 0, .string "j@x.com"⟩ =
      ({ status := 200, success := true, message := "Account updated successfully",
         data := some { id := 2, name := .string "Jane Smith", balance := .number 0,
                        email := .string "j@x.com" } },
       [ { id := 1, name := .string "John Doe", balance := .number 5000,
           email := .string "john@example.com" },
         { id := 2, name := .string "Jane Smith", balance := .number 0,
           email := .string "j@x.com" } ]) ∧
    ∃ prior updated : Account,
      getAccount accounts (some 2) =
        { status := 200, success := true, message := "Account retrieved",
          data := some prior } ∧
      (putAccount accounts (some 2) ⟨.string "", .number 0, .string "j@x.com"⟩).1 =
        { status := 200, success := true, message := "Account updated successfully",
          data := some updated } ∧
      updated.name = prior.name ∧ updated.balance = .number 0 := by
  refine ⟨by decide, by decide, ?_⟩
  obtain ⟨prior, updated, h1, h2, _, _, _, _, _, _, h9, h10, _⟩ :=
    update_overwrites_supplied accounts 2 ⟨.string "", .number 0, .string "j@x.com"⟩
      (by decide)
  exact ⟨prior, updated, h1, h2, h10 rfl, h9 rfl⟩

theorem get?_append_cons_ne (pre post : List Account) (x y : Account) (i : Nat)
    (hi : i ≠ pre.length) :
    (pre ++ x :: post).get? i = (pre ++ y :: post).get? i := by
  induction pre generalizing i with
  | nil =>
    cases i with
    | zero => simp at hi
    | succ k => rfl
  | cons b rest ih =>
    cases i with
    | zero => rfl
    | succ k =>
      simp only [List.cons_append, List.get?_cons_succ]
      exact ih k (by simpa using hi)

/-- C4. For every store, every id that exists in it and every payload, `PUT`
answers 200 with the updated record, which is what the store then holds in the
slot of the first record with that id; the record keeps its id and every field
whose key the payload omits; every other slot holds what it held before, and the
length of the store and the order of its ids are unchanged. -/
theorem update_frame (store : List Account) (id : Int) (body : Body)
    (h : ∃ a ∈ store, a.id = id) :
    ∃ (pre : List Account) (prior : Account) (post : List Account) (updated : Account),
      store = pre ++ prior :: post ∧ prior.id = id ∧ (∀ a ∈ pre, a.id ≠ id) ∧
      putAccount store (some id) body =
        ({ status := 200, success := true, message := "Account updated successfully",
           data := some updated }, pre ++ updated :: post) ∧
      updated.id = prior.id ∧
      (body.name = .undefined → updated.name = prior.name) ∧
      (body.balance = .undefined → updated.balance = prior.balance) ∧
      (body.email = .undefined → updated.email = prior.email) ∧
      (putAccount store (some id) body).2.length = store.length ∧
      (putAccount store (some id) body).2.map (·.id) = store.map (·.id) ∧
      (putAccount store (some id) body).2.get? pre.length = some updated ∧
      (∀ i, i ≠ pre.length →
        (putAccount store (some id) body).2.get? i = store.get? i) := by
  obtain ⟨pre, prior, post, hs, hid, hpre⟩ := exists_first_with_id store id h
  subst hs
  have hput := putAccount_first pre post prior id body hid hpre
  refine ⟨pre, prior, post, applyBody prior body, rfl, hid, hpre, hput,
    applyBody_id prior body, ?_, ?_, ?_, ?_, ?_, ?_, ?_⟩
  · intro hb; rw [applyBody_name, hb]; simp [truthy]
  · intro hb; rw [applyBody_balance, hb]; simp
  · intro hb; rw [applyBody_email, hb]; simp [truthy]
  · rw [hput]; simp
  · rw [hput]; simp [applyBody_id]
  · rw [hput]; exact get?_first pre post (applyBody prior body)
  · intro i hi
    rw [hput]
    exact get?_append_cons_ne pre post (applyBody prior body) prior i hi

/-- C4 on the seed: `PUT` of a balance of 100 on record 2 returns record 2 with
balance 100 and its name and email unchanged, and leaves record 1 as it was. -/
theorem update_frame_witness :
    (∃ a ∈ accounts, a.id = 2) ∧
    putAccount accounts (some 2) ⟨.undefined, .number 100, .undefined⟩ =
      ({ status := 200, success := true, message := "Account updated successfully",
         data := some { id := 2, name := .string "Jane Smith", balance := .number 100,
                        email := .string "jane@example.com" } },
       [ { id := 1, name := .string "John Doe", balance := .number 5000,
           email := .string "john@example.com" },
         { id := 2, name := .string "Jane Smith", balance := .number 100,
           email := .string "jane@example.com" } ]) ∧
    (putAccount accounts (some 2) ⟨.undefined, .number 100, .undefined⟩).2.length =
      accounts.length ∧
    (putAccount accounts (some 2) ⟨.undefined, .number 100, .undefined⟩).2.map (·.id) =
      accounts.map (·.id) := by
  refine ⟨by decide, by decide, ?_⟩
  obtain ⟨_, _, _, _, _, _, _, _, _, _, _, _, hlen, hids, _, _⟩ :=
    update_frame accounts 2 ⟨.undefined, .number 100, .undefined⟩ (by decide)
  exact ⟨hlen, hids⟩

/-! ## Deletion and lookup failures -/

theorem uniqueIds_split (pre post : List Account) (x : Account)
    (h : UniqueIds (pre ++ x :: post)) :
    (∀ a ∈ pre ++ post, a.id ≠ x.id) ∧ UniqueIds (pre ++ post) := by
  unfold UniqueIds at h ⊢
  rw [List.map_append, List.map_cons, List.nodup_middle, List.nodup_cons] at h
  rw [List.map_append]
  refine ⟨?_, h.2⟩
  intro a ha hid
  apply h.1
  rw [← List.map_append, ← hid]
  exact List.mem_map_of_mem _ ha

theorem filter_ne_id_self (l : List Account) (id : Int) (h : ∀ a ∈ l, a.id ≠ id) :
    l.filter (fun a => a.id != id) = l := by
  rw [List.filter_eq_self]
  intro a ha
  simpa using h a ha

theorem filterDeleted_split (pre post : List Account) (x : Account)
    (h : ∀ a ∈ pre ++ post, a.id ≠ x.id) :
    filterDeleted (pre ++ x :: post) x.id = pre ++ post := by
  unfold filterDeleted
  rw [List.filter_append, List.filter_cons]
  rw [filter_ne_id_self pre x.id (fun a ha => h a (List.mem_append_left post ha)),
    filter_ne_id_self post x.id (fun a ha => h a (List.mem_append_right pre ha))]
  simp

/-- C5. For every store with unique ids and every id present in it, `DELETE`
answers 200 and returns the record stored under that id; the store afterwards is
the previous store with exactly that record taken out, the others unchanged and
in the same order, one record shorter; and a `GET` of the same id afterwards is
answered 404. -/
theorem delete_postcondition (store : List Account) (id : Int)
    (hunique : UniqueIds store) (h : ∃ a ∈ store, a.id = id) :
    ∃ (pre : List Account) (removed : Account) (post : List Account),
      store = pre ++ removed :: post ∧ removed.id = id ∧
      getAccount store (some id) =
        { status := 200, success := true, message := "Account retrieved",
          data := some removed } ∧
      deleteAccount store (some id) =
        ({ status := 200, success := true, message := "Account deleted successfully",
           data := some removed }, pre ++ post) ∧
      (deleteAccount store (some id)).2 = store.filter (fun a => a.id != id) ∧
      (∀ a, a ∈ (deleteAccount store (some id)).2 ↔ a ∈ store ∧ a ≠ removed) ∧
      (deleteAccount store (some id)).2.length + 1 = store.length ∧
      getAccount (deleteAccount store (some id)).2 (some id) = notFound := by
  obtain ⟨pre, removed, post, hs, hid, hpre⟩ := exists_first_with_id store id h
  subst hs
  obtain ⟨hothers, _⟩ := uniqueIds_split pre post removed hunique
  have hdel := deleteAccount_first pre post removed id hid hpre
  refine ⟨pre, removed, post, rfl, hid, getAccount_first pre post removed id hid hpre, hdel,
    ?_, ?_, ?_, ?_⟩
  · rw [hdel, ← hid]
    exact (filterDeleted_split pre post removed hothers).symm
  · intro a
    rw [hdel]
    constructor
    · intro ha
      refine ⟨?_, fun heq => hothers a ha (by rw [heq])⟩
      rcases List.mem_append.mp ha with h1 | h1
      · exact List.mem_append_left _ h1
      · exact List.mem_append_right _ (List.mem_cons_of_mem _ h1)
    · rintro ⟨ha, hne⟩
      rcases List.mem_append.mp ha with h1 | h1
      · exact List.mem_append_left _ h1
      · rcases List.mem_cons.mp h1 with h2 | h2
        · exact absurd h2 hne
        · exact List.mem_append_right _ h2
  · rw [hdel]; simp; omega
  · rw [hdel]
    apply getAccount_absent
    intro a ha
    have := hothers a ha
    rw [hid] at this
    simpa [idMatches] using this

/-- C5 on the seed followed by the creation of account A: `DELETE` of id 1
returns the record with id 1 and the list is then exactly the records with ids 2
and 3. -/
theorem delete_postcondition_witness :
    UniqueIds (postAccount accounts ⟨.string "A", .number 0, .string "a@x.com"⟩).2 ∧
    (deleteAccount (postAccount accounts ⟨.string "A", .number 0, .string "a@x.com"⟩).2
      (some 1)).1 =
      { status := 200, success := true, message := "Account deleted successfully",
        data := some { id := 1, name := .string "John Doe", balance := .number 5000,
                       email := .string "john@example.com" } } ∧
    (getAccounts (deleteAccount
        (postAccount accounts ⟨.string "A", .number 0, .string "a@x.com"⟩).2 (some 1)).2).data =
      some [ { id := 2, name := .string "Jane Smith", balance := .number 7500,
               email := .string "jane@example.com" },
             { id := 3, name := .string "A", balance := .number 0,
               email := .string "a@x.com" } ] ∧
    getAccount (deleteAccount
        (postAccount accounts ⟨.string "A", .number 0, .string "a@x.com"⟩).2 (some 1)).2
      (some 1) = notFound := by
  refine ⟨by decide, by decide, by decide, ?_⟩
  obtain ⟨_, _, _, _, _, _, _, _, _, _, hget⟩ :=
    delete_postcondition (postAccount accounts ⟨.string "A", .number 0, .string "a@x.com"⟩).2 1
      (by decide) (by decide)
  exact hget

/-- C6. For every store and every route parameter that matches the id of no
stored record (a number no record has, or `NaN`), `GET`, `PUT` with any payload
and `DELETE` each answer 404 with `success: false` and the message
"Account not found", and leave the store exactly as it was; and `GET` of an id
that some record has answers 200 with a stored record whose id is that id. -/
theorem notFound_atomicity (store : List Account) (param : Option Int) (body : Body)
    (h : ∀ a ∈ store, param ≠ some a.id) :
    getAccount store param = notFound ∧
    putAccount store param body = (notFound, store) ∧
    deleteAccount store param = (notFound, store) ∧
    notFound =
      { status := 404, success := false, message := "Account not found", data := none } ∧
    (∀ id : Int, (∃ a ∈ store, a.id = id) →
      ∃ found ∈ store, found.id = id ∧
        getAccount store (some id) =
          { status := 200, success := true, message := "Account retrieved",
            data := some found }) := by
  have hm : ∀ a ∈ store, idMatches param a = false := by
    intro a ha
    cases param with
    | none => rfl
    | some n =>
      have := h a ha
      simp only [idMatches]
      simp only [ne_eq, Option.some.injEq] at this
      simpa using fun heq => this heq.symm
  refine ⟨getAccount_absent store param hm, putAccount_absent store param body hm,
    deleteAccount_absent store param hm, rfl, ?_⟩
  intro id hex
  obtain ⟨pre, found, post, hs, hid, hpre⟩ := exists_first_with_id store id hex
  subst hs
  exact ⟨found, by simp, hid, getAccount_first pre post found id hid hpre⟩

/-- C6 on the seed with the id 7, which no record has. -/
theorem notFound_atomicity_witness :
    (∀ a ∈ accounts, (some 7 : Option Int) ≠ some a.id) ∧
    getAccount accounts (some 7) = notFound ∧
    putAccount accounts (some 7) ⟨.string "X", .number 1, .string "x@x.com"⟩ =
      (notFound, accounts) ∧
    deleteAccount accounts (some 7) = (notFound, accounts) ∧
    (getAccount accounts (some 2)).status = 200 :=
  have h := notFound_atomicity accounts (some 7) ⟨.string "X", .number 1, .string "x@x.com"⟩
    (by decide)
  ⟨by decide, h.1, h.2.1, h.2.2.1, by decide⟩

/-! ## Ids along sequences of requests -/

theorem assignFound_ids (p : Account → Bool) (updated account : Account) (store : List Account)
    (hfind : store.find? p = some account) (hid : updated.id = account.id) :
    (assignFound p updated store).map (·.id) = store.map (·.id) := by
  induction store with
  | nil => simp at hfind
  | cons b rest ih =>
    by_cases hb : p b = true
    · rw [List.find?_cons_of_pos _ hb] at hfind
      injection hfind with hfind
      subst hfind
      simp [assignFound, hb, hid]
    · rw [List.find?_cons_of_neg _ hb] at hfind
      simp [assignFound, hb, ih hfind]

theorem putAccount_ids (store : List Account) (param : Option Int) (body : Body) :
    (putAccount store param body).2.map (·.id) = store.map (·.id) := by
  unfold putAccount
  cases hfind : store.find? (idMatches param) with
  | none => rfl
  | some account =>
    exact assignFound_ids _ _ account store hfind (applyBody_id account body)

theorem deleteAccount_sublist (store : List Account) (param : Option Int) :
    List.Sublist (deleteAccount store param).2 store := by
  unfold deleteAccount
  cases findIndex (idMatches param) store with
  | none => exact List.Sublist.refl store
  | some index => exact List.eraseIdx_sublist store index

theorem postAccount_ids (store : List Account) (body : Body) :
    (postAccount store body).2.map (·.id) =
      store.map (·.id) ++ (createdId store (.create body)).toList := by
  by_cases h : truthy body.name = false ∨ body.balance = .undefined ∨ truthy body.email = false
  · simp [createdId, postAccount_of_invalid store body h]
  · push_neg at h
    obtain ⟨h1, h2, h3⟩ := h
    simp [createdId, postAccount_of_valid store body (by simpa using h1) h2 (by simpa using h3)]

theorem createdId_gt (store : List Account) (request : Request) (i : Int)
    (h : createdId store request = some i) : ∀ a ∈ store, a.id < i := by
  cases request with
  | create body =>
    by_cases hv : truthy body.name = false ∨ body.balance = .undefined ∨
        truthy body.email = false
    · simp [createdId, postAccount_of_invalid store body hv] at h
    · push_neg at hv
      obtain ⟨h1, h2, h3⟩ := hv
      simp [createdId,
        postAccount_of_valid store body (by simpa using h1) h2 (by simpa using h3)] at h
      subst h
      exact fun a ha => nextId_gt store a ha
  | list => simp [createdId] at h
  | get param => simp [createdId] at h
  | update param body => simp [createdId] at h
  | delete param => simp [createdId] at h

theorem handle_ids (store : List Account) (request : Request)
    (h : request.isDelete = false) :
    (handle store request).map (·.id) =
      store.map (·.id) ++ (createdId store request).toList := by
  cases request with
  | create body => exact postAccount_ids store body
  | list => simp [handle, createdId]
  | get param => simp [handle, createdId]
  | update param body => simp [handle, createdId, putAccount_ids]
  | delete param => simp [Request.isDelete] at h

theorem uniqueIds_handle (store : List Account) (request : Request)
    (h : UniqueIds store) : UniqueIds (handle store request) := by
  cases request with
  | delete param =>
    exact List.Nodup.sublist ((deleteAccount_sublist store param).map _) h
  | create body =>
    unfold UniqueIds
    rw [handle_ids store (.create body) rfl]
    cases hc : createdId store (.create body) with
    | none => simpa using h
    | some i =>
      have hgt := createdId_gt store (.create body) i hc
      simp only [Option.toList]
      rw [List.nodup_append]
      refine ⟨h, List.nodup_singleton i, ?_⟩
      intro x hx hx2
      obtain ⟨a, ha, hid⟩ := List.mem_map.mp hx
      have := hgt a ha
      simp at hx2
      omega
  | list => exact h
  | get param => exact h
  | update param body =>
    unfold UniqueIds
    rw [handle_ids store (.update param body) rfl]
    simpa [createdId] using h

theorem run_cons (store : List Account) (request : Request) (rest : List Request) :
    run store (request :: rest) = run (handle store request) rest := rfl

theorem uniqueIds_run (store : List Account) (requests : List Request)
    (h : UniqueIds store) : UniqueIds (run store requests) := by
  induction requests generalizing store with
  | nil => exact h
  | cons request rest ih =>
    rw [run_cons]
    exact ih (handle store request) (uniqueIds_handle store request h)

/-- C7. The seed has pairwise distinct ids, every request to the five account
routes, whatever its arguments and whether it succeeds or fails, leaves the ids
of the store pairwise distinct when they were so before, and hence the ids are
pairwise distinct in every store reached from the seed by a finite sequence of
requests. -/
theorem id_uniqueness :
    UniqueIds accounts ∧
    accounts.map (·.id) = [1, 2] ∧
    (∀ (store : List Account) (request : Request),
      UniqueIds store → UniqueIds (handle store request)) ∧
    (∀ requests : List Request, UniqueIds (run accounts requests)) :=
  ⟨by decide, by decide, uniqueIds_handle,
    fun requests => uniqueIds_run accounts requests (by decide)⟩

/-- C7 along a concrete sequence on the seed: create, delete 1, create, update. -/
theorem id_uniqueness_witness :
    UniqueIds (run accounts
      [.create ⟨.string "A", .number 0, .string "a@x.com"⟩, .delete (some 1),
       .create ⟨.string "B", .number 5, .string "b@x.com"⟩,
       .update (some 2) ⟨.string "C", .undefined, .undefined⟩]) ∧
    (run accounts
      [.create ⟨.string "A", .number 0, .string "a@x.com"⟩, .delete (some 1),
       .create ⟨.string "B", .number 5, .string "b@x.com"⟩,
       .update (some 2) ⟨.string "C", .undefined, .undefined⟩]).map (·.id) = [2, 3, 4] :=
  ⟨id_uniqueness.2.2.2 _, by decide⟩

theorem createdIds_gt (store : List Account) (requests : List Request)
    (hnodelete : ∀ r ∈ requests, r.isDelete = false) :
    ∀ i ∈ createdIds store requests, ∀ x ∈ store.map (·.id), x < i := by
  induction requests generalizing store with
  | nil => intro i hi; simp [createdIds] at hi
  | cons request rest ih =>
    intro i hi x hx
    have hreq : request.isDelete = false := hnodelete request (List.mem_cons_self _ _)
    have hrest : ∀ r ∈ rest, r.isDelete = false :=
      fun r hr => hnodelete r (List.mem_cons_of_mem _ hr)
    simp only [createdIds, List.mem_append] at hi
    rcases hi with hi | hi
    · obtain ⟨a, ha, hid⟩ := List.mem_map.mp hx
      have hc : createdId store request = some i := by
        cases hc : createdId store request with
        | none => simp [hc] at hi
        | some k => simp [hc] at hi; rw [hi]
      have := createdId_gt store request i hc a ha
      omega
    · apply ih (handle store request) hrest i hi x
      rw [handle_ids store request hreq]
      exact List.mem_append_left _ hx

theorem createdIds_pairwise (store : List Account) (requests : List Request)
    (hnodelete : ∀ r ∈ requests, r.isDelete = false) :
    (createdIds store requests).Pairwise (· < ·) := by
  induction requests generalizing store with
  | nil => simp [createdIds]
  | cons request rest ih =>
    have hreq : request.isDelete = false := hnodelete request (List.mem_cons_self _ _)
    have hrest : ∀ r ∈ rest, r.isDelete = false :=
      fun r hr => hnodelete r (List.mem_cons_of_mem _ hr)
    simp only [createdIds]
    rw [List.pairwise_append]
    refine ⟨?_, ih (handle store request) hrest, ?_⟩
    · cases createdId store request <;> simp
    · intro a ha b hb
      apply createdIds_gt (handle store request) rest hrest b hb a
      rw [handle_ids store request hreq]
      exact List.mem_append_right _ ha

/-- C8. For every store and every finite sequence of requests none of which is a
`DELETE`, the ids returned by the successful creations of the sequence are
strictly increasing in the order of the requests, hence pairwise distinct, and
each is strictly greater than every id the store held before the sequence. -/
theorem monotone_ids (store : List Account) (requests : List Request)
    (hnodelete : ∀ r ∈ requests, r.isDelete = false) :
    (createdIds store requests).Pairwise (· < ·) ∧
    (createdIds store requests).Nodup ∧
    (∀ i ∈ createdIds store requests, ∀ a ∈ store, a.id < i) ∧
    (∀ (body : Body), truthy body.name = true → body.balance ≠ .undefined →
      truthy body.email = true →
      createdIds store (.create body :: requests) =
        nextId store :: createdIds (handle store (.create body)) requests) := by
  have hp := createdIds_pairwise store requests hnodelete
  refine ⟨hp, ?_, ?_, ?_⟩
  · exact hp.imp (fun h => ne_of_lt h)
  · intro i hi a ha
    exact createdIds_gt store requests hnodelete i hi a.id (List.mem_map_of_mem _ ha)
  · intro body h1 h2 h3
    simp [createdIds, createdId, postAccount_of_valid store body h1 h2 h3]

/-- C8 on the seed: three creations interleaved with a get, an update and a list
return the ids 3, 4 and 5. -/
theorem monotone_ids_witness :
    (∀ r ∈ [Request.create ⟨.string "A", .number 0, .string "a@x.com"⟩, .get (some 1),
        .update (some 3) ⟨.string "Z", .undefined, .undefined⟩,
        .create ⟨.string "B", .number 5, .string "b@x.com"⟩, .list,
        .create ⟨.string "C", .number 9, .string "c@x.com"⟩], r.isDelete = false) ∧
    createdIds accounts
      [.create ⟨.string "A", .number 0, .string "a@x.com"⟩, .get (some 1),
       .update (some 3) ⟨.string "Z", .undefined, .undefined⟩,
       .create ⟨.string "B", .number 5, .string "b@x.com"⟩, .list,
       .create ⟨.string "C", .number 9, .string "c@x.com"⟩] = [3, 4, 5] ∧
    (createdIds accounts
      [.create ⟨.string "A", .number 0, .string "a@x.com"⟩, .get (some 1),
       .update (some 3) ⟨.string "Z", .undefined, .undefined⟩,
       .create ⟨.string "B", .number 5, .string "b@x.com"⟩, .list,
       .create ⟨.string "C", .number 9, .string "c@x.com"⟩]).Pairwise (· < ·) :=
  ⟨by decide, by decide, (monotone_ids accounts _ (by decide)).1⟩

/-! ## The client cache -/

theorem replaceReturned_split (pre post : List Account) (x returned : Account)
    (h : ∀ a ∈ pre ++ post, a.id ≠ x.id) :
    replaceReturned (pre ++ x :: post) x.id returned = pre ++ returned :: post := by
  have hself : ∀ l : List Account, (∀ a ∈ l, a.id ≠ x.id) →
      l.map (fun acc => if acc.id = x.id then returned else acc) = l := by
    intro l hl
    induction l with
    | nil => rfl
    | cons b rest ih =>
      have hb := hl b (List.mem_cons_self _ _)
      simp only [List.map_cons, if_neg hb]
      rw [ih (fun a ha => hl a (List.mem_cons_of_mem _ ha))]
  unfold replaceReturned
  rw [List.map_append, List.map_cons,
    hself pre (fun a ha => h a (List.mem_append_left post ha)),
    hself post (fun a ha => h a (List.mem_append_right pre ha))]
  simp

/-- The reconciliation of an update agrees with the store, for any payload. -/
theorem replaceReturned_putAccount (store : List Account) (id : Int) (body : Body)
    (hunique : UniqueIds store) (returned : Account)
    (hdata : (putAccount store (some id) body).1.data = some returned) :
    replaceReturned store id returned = (putAccount store (some id) body).2 := by
  by_cases hex : ∃ a ∈ store, a.id = id
  · obtain ⟨pre, prior, post, hs, hid, hpre⟩ := exists_first_with_id store id hex
    subst hs
    obtain ⟨hothers, _⟩ := uniqueIds_split pre post prior hunique
    rw [putAccount_first pre post prior id body hid hpre] at hdata ⊢
    simp only [Option.some.injEq] at hdata
    subst hdata
    rw [← hid]
    exact replaceReturned_split pre post prior _ hothers
  · push_neg at hex
    have hm : ∀ a ∈ store, idMatches (some id) a = false := fun a ha => by
      simpa [idMatches] using hex a ha
    rw [putAccount_absent store (some id) body hm] at hdata
    simp [notFound] at hdata

/-- The reconciliation of a deletion agrees with the store. -/
theorem filterDeleted_deleteAccount (store : List Account) (id : Int)
    (hunique : UniqueIds store) (hok : resolves (deleteAccount store (some id)).1 = true) :
    filterDeleted store id = (deleteAccount store (some id)).2 := by
  by_cases hex : ∃ a ∈ store, a.id = id
  · obtain ⟨pre, removed, post, hs, hid, hpre⟩ := exists_first_with_id store id hex
    subst hs
    obtain ⟨hothers, _⟩ := uniqueIds_split pre post removed hunique
    rw [deleteAccount_first pre post removed id hid hpre, ← hid]
    exact filterDeleted_split pre post removed hothers
  · push_neg at hex
    have hm : ∀ a ∈ store, idMatches (some id) a = false := fun a ha => by
      simpa [idMatches] using hex a ha
    rw [deleteAccount_absent store (some id) hm] at hok
    simp [notFound, resolves] at hok

/-- The reconciliation of a creation agrees with the store, for any body. -/
theorem appendReturned_postAccount (store : List Account) (body : Body) (returned : Account)
    (hdata : (postAccount store body).1.data = some returned) :
    appendReturned store returned = (postAccount store body).2 := by
  by_cases h : truthy body.name = false ∨ body.balance = .undefined ∨ truthy body.email = false
  · rw [postAccount_of_invalid store body h] at hdata
    simp at hdata
  · push_neg at h
    obtain ⟨h1, h2, h3⟩ := h
    rw [postAccount_of_valid store body (by simpa using h1) h2 (by simpa using h3)] at hdata ⊢
    simp only [Option.some.injEq] at hdata
    subst hdata
    rfl

theorem postAccount_data_of_resolves (store : List Account) (body : Body)
    (h : resolves (postAccount store body).1 = true) :
    ∃ returned, (postAccount store body).1.data = some returned ∧
      (postAccount store body).1.status = 201 := by
  by_cases hv : truthy body.name = false ∨ body.balance = .undefined ∨
      truthy body.email = false
  · rw [postAccount_of_invalid store body hv] at h
    simp [resolves] at h
  · push_neg at hv
    obtain ⟨h1, h2, h3⟩ := hv
    rw [postAccount_of_valid store body (by simpa using h1) h2 (by simpa using h3)]
    exact ⟨_, rfl, rfl⟩

theorem postAccount_unchanged_of_rejects (store : List Account) (body : Body)
    (h : resolves (postAccount store body).1 = false) : (postAccount store body).2 = store := by
  by_cases hv : truthy body.name = false ∨ body.balance = .undefined ∨
      truthy body.email = false
  · rw [postAccount_of_invalid store body hv]
  · push_neg at hv
    obtain ⟨h1, h2, h3⟩ := hv
    rw [postAccount_of_valid store body (by simpa using h1) h2 (by simpa using h3)] at h
    simp [resolves] at h

theorem putAccount_cases (store : List Account) (param : Option Int) (body : Body) :
    (putAccount store param body = (notFound, store)) ∨
    (∃ updated, (putAccount store param body).1 =
      { status := 200, success := true, message := "Account updated successfully",
        data := some updated }) := by
  unfold putAccount
  cases store.find? (idMatches param) with
  | none => left; rfl
  | some account => right; exact ⟨_, rfl⟩

theorem deleteAccount_unchanged_of_rejects (store : List Account) (param : Option Int)
    (h : resolves (deleteAccount store param).1 = false) :
    (deleteAccount store param).2 = store := by
  unfold deleteAccount at h ⊢
  cases hfi : findIndex (idMatches param) store with
  | none => rfl
  | some index => rw [hfi] at h; simp [resolves] at h

/-- C9. When the cached list equals the store and the store has unique ids, the
cached list as reconciled by the client equals the store after the request: the
returned record appended after a creation answered 201, the record with the
edited id replaced through `map` after an update answered 200, the record with
the id filtered out after a deletion answered 200, for every body and id; and
each of the three client handlers, run on its form state, ends with the cached
list equal to the store, the store being the one the server handler leaves. -/
theorem cache_mirrors_store (parseFloat : JsValue → JsValue) (cache store : List Account)
    (hsync : cache = store) (hunique : UniqueIds store) :
    (∀ (body : Body) (returned : Account),
      (postAccount store body).1.status = 201 →
      (postAccount store body).1.data = some returned →
      appendReturned cache returned = (postAccount store body).2) ∧
    (∀ (id : Int) (body : Body) (returned : Account),
      (putAccount store (some id) body).1.status = 200 →
      (putAccount store (some id) body).1.data = some returned →
      replaceReturned cache id returned = (putAccount store (some id) body).2) ∧
    (∀ id : Int, (deleteAccount store (some id)).1.status = 200 →
      filterDeleted cache id = (deleteAccount store (some id)).2) ∧
    (∀ formData : FormData,
      (handleCreateAccount parseFloat cache formData store).1 =
        (handleCreateAccount parseFloat cache formData store).2 ∧
      (truthy formData.name = true → truthy formData.balance = true →
        truthy formData.email = true →
        (handleCreateAccount parseFloat cache formData store).2 =
          (postAccount store (createBody parseFloat formData)).2)) ∧
    (∀ (editingId : Int) (formData : FormData),
      (handleUpdateAccount parseFloat cache (some editingId) formData store).1 =
        (handleUpdateAccount parseFloat cache (some editingId) formData store).2 ∧
      (editingId ≠ 0 →
        (handleUpdateAccount parseFloat cache (some editingId) formData store).2 =
          (putAccount store (some editingId) (updateBody parseFloat formData)).2)) ∧
    (∀ id : Int,
      (handleDeleteAccount cache id store).1 = (handleDeleteAccount cache id store).2 ∧
      (handleDeleteAccount cache id store).2 = (deleteAccount store (some id)).2) := by
  subst hsync
  refine ⟨?_, ?_, ?_, ?_, ?_, ?_⟩
  · intro body returned _ hdata
    exact appendReturned_postAccount cache body returned hdata
  · intro id body returned _ hdata
    exact replaceReturned_putAccount cache id body hunique returned hdata
  · intro id hstatus
    exact filterDeleted_deleteAccount cache id hunique (by simp [resolves, hstatus])
  · intro formData
    by_cases hval : (!truthy formData.name || !truthy formData.balance ||
        !truthy formData.email) = true
    · refine ⟨by simp only [handleCreateAccount, hval, if_true], ?_⟩
      intro h1 h2 h3
      simp [h1, h2, h3] at hval
    · by_cases hres : resolves (postAccount cache (createBody parseFloat formData)).1 = true
      · obtain ⟨returned, hdata, _⟩ := postAccount_data_of_resolves cache _ hres
        have hrec := appendReturned_postAccount cache _ returned hdata
        refine ⟨?_, fun _ _ _ => ?_⟩ <;>
          simp only [handleCreateAccount, hval, hres, hdata, if_true, if_false,
            Bool.false_eq_true, hrec]
      · have hsame := postAccount_unchanged_of_rejects cache
          (createBody parseFloat formData) (by simpa using hres)
        refine ⟨?_, fun _ _ _ => ?_⟩ <;>
          simp only [handleCreateAccount, hval, hres, if_false, Bool.false_eq_true, hsame]
  · intro editingId formData
    by_cases hzero : editingId = 0
    · exact ⟨by simp only [handleUpdateAccount, hzero, if_true], fun hne => absurd hzero hne⟩
    · rcases putAccount_cases cache (some editingId) (updateBody parseFloat formData) with
        hc | ⟨updated, hc⟩
      · have hres : resolves (putAccount cache (some editingId)
            (updateBody parseFloat formData)).1 = false := by
          rw [hc]; rfl
        have hsame : (putAccount cache (some editingId)
            (updateBody parseFloat formData)).2 = cache := by rw [hc]
        refine ⟨?_, fun _ => ?_⟩ <;>
          simp only [handleUpdateAccount, hzero, hres, if_false, Bool.false_eq_true, hsame]
      · have hres : resolves (putAccount cache (some editingId)
            (updateBody parseFloat formData)).1 = true := by
          rw [hc]; rfl
        have hdata : (putAccount cache (some editingId)
            (updateBody parseFloat formData)).1.data = some updated := by rw [hc]
        have hrec := replaceReturned_putAccount cache editingId _ hunique updated hdata
        refine ⟨?_, fun _ => ?_⟩ <;>
          simp only [handleUpdateAccount, hzero, hres, hdata, if_true, if_false, hrec]
  · intro id
    by_cases hres : resolves (deleteAccount cache (some id)).1 = true
    · have hrec := filterDeleted_deleteAccount cache id hunique hres
      constructor <;> simp only [handleDeleteAccount, hres, if_true, hrec]
    · have hsame := deleteAccount_unchanged_of_rejects cache (some id) (by simpa using hres)
      constructor <;>
        simp only [handleDeleteAccount, hres, if_false, Bool.false_eq_true, hsame]

/-- C9 on the seed: after the client creates an account, then edits record 2,
then deletes record 1, each time with the cached list equal to the store
beforehand, the cached list equals the store. -/
theorem cache_mirrors_store_witness :
    UniqueIds accounts ∧
    (handleCreateAccount (fun _ => .number 250) accounts
      ⟨.string "A", .string "250", .string "a@x.com"⟩ accounts).1 =
    (handleCreateAccount (fun _ => .number 250) accounts
      ⟨.string "A", .string "250", .string "a@x.com"⟩ accounts).2 ∧
    (handleCreateAccount (fun _ => .number 250) accounts
      ⟨.string "A", .string "250", .string "a@x.com"⟩ accounts).1.map (·.id) = [1, 2, 3] ∧
    (handleUpdateAccount (fun _ => .number 250) accounts (some 2)
      ⟨.string "Jane", .string "250", .string ""⟩ accounts).1 =
      [ { id := 1, name := .string "John Doe", balance := .number 5000,
          email := .string "john@example.com" },
        { id := 2, name := .string "Jane", balance := .number 250,
          email := .string "jane@example.com" } ] ∧
    (handleUpdateAccount (fun _ => .number 250) accounts (some 2)
      ⟨.string "Jane", .string "250", .string ""⟩ accounts).1 =
    (handleUpdateAccount (fun _ => .number 250) accounts (some 2)
      ⟨.string "Jane", .string "250", .string ""⟩ accounts).2 ∧
    (handleDeleteAccount accounts 1 accounts).1 = (handleDeleteAccount accounts 1 accounts).2 ∧
    (handleDeleteAccount accounts 1 accounts).1.map (·.id) = [2] :=
  have h := cache_mirrors_store (fun _ => .number 250) accounts accounts rfl (by decide)
  ⟨by decide, (h.2.2.2.1 _).1, by decide, by decide, (h.2.2.2.2.1 2 _).1,
    (h.2.2.2.2.2 1).1, by decide⟩

/-! ## Names and emails stay non-empty -/

theorem nonEmptyText_of_truthy (v : JsValue) (htext : TextOrAbsent v)
    (h : truthy v = true) : NonEmptyText v := by
  rcases htext with hv | ⟨s, hv⟩
  · rw [hv] at h; simp [truthy] at h
  · rw [hv] at h
    exact ⟨s, hv, by simpa [truthy] using h⟩

theorem mem_assignFound (p : Account → Bool) (updated : Account) (store : List Account)
    (a : Account) (h : a ∈ assignFound p updated store) : a = updated ∨ a ∈ store := by
  induction store with
  | nil => simp [assignFound] at h
  | cons b rest ih =>
    by_cases hb : p b = true
    · simp only [assignFound, hb, if_true] at h
      rcases List.mem_cons.mp h with h1 | h1
      · left; exact h1
      · right; exact List.mem_cons_of_mem _ h1
    · simp only [assignFound, hb, if_false, Bool.false_eq_true] at h
      rcases List.mem_cons.mp h with h1 | h1
      · right; rw [h1]; exact List.mem_cons_self _ _
      · rcases ih h1 with h2 | h2
        · left; exact h2
        · right; exact List.mem_cons_of_mem _ h2

theorem nonEmpty_handle (store : List Account) (request : Request)
    (htext : request.textual)
    (hinv : ∀ a ∈ store, NonEmptyText a.name ∧ NonEmptyText a.email) :
    ∀ a ∈ handle store request, NonEmptyText a.name ∧ NonEmptyText a.email := by
  cases request with
  | list => exact hinv
  | get param => exact hinv
  | delete param =>
    intro a ha
    exact hinv a ((deleteAccount_sublist store param).subset ha)
  | create body =>
    intro a ha
    simp only [handle] at ha
    by_cases hv : truthy body.name = false ∨ body.balance = .undefined ∨
        truthy body.email = false
    · rw [postAccount_of_invalid store body hv] at ha
      exact hinv a ha
    · push_neg at hv
      obtain ⟨h1, h2, h3⟩ := hv
      have h1t : truthy body.name = true := by simpa using h1
      have h3t : truthy body.email = true := by simpa using h3
      rw [postAccount_of_valid store body h1t h2 h3t] at ha
      rcases List.mem_append.mp ha with ha | ha
      · exact hinv a ha
      · simp only [List.mem_singleton] at ha
        subst ha
        exact ⟨nonEmptyText_of_truthy _ htext.1 h1t, nonEmptyText_of_truthy _ htext.2 h3t⟩
  | update param body =>
    intro a ha
    simp only [handle, putAccount] at ha
    cases hfind : store.find? (idMatches param) with
    | none =>
      rw [hfind] at ha
      exact hinv a ha
    | some account =>
      rw [hfind] at ha
      have hacc := hinv account (List.mem_of_find?_eq_some hfind)
      rcases mem_assignFound _ _ _ _ ha with h1 | h1
      · subst h1
        constructor
        · rw [applyBody_name]
          split_ifs with ht
          · exact nonEmptyText_of_truthy _ htext.1 ht
          · exact hacc.1
        · rw [applyBody_email]
          split_ifs with ht
          · exact nonEmptyText_of_truthy _ htext.2 ht
          · exact hacc.2
      · exact hinv a h1

theorem nonEmpty_run (store : List Account) (requests : List Request)
    (htext : ∀ r ∈ requests, r.textual)
    (hinv : ∀ a ∈ store, NonEmptyText a.name ∧ NonEmptyText a.email) :
    ∀ a ∈ run store requests, NonEmptyText a.name ∧ NonEmptyText a.email := by
  induction requests generalizing store with
  | nil => exact hinv
  | cons request rest ih =>
    rw [run_cons]
    exact ih (handle store request) (fun r hr => htext r (List.mem_cons_of_mem _ hr))
      (nonEmpty_handle store request (htext request (List.mem_cons_self _ _)) hinv)

theorem nonEmpty_seed : ∀ a ∈ accounts, NonEmptyText a.name ∧ NonEmptyText a.email := by
  intro a ha
  simp only [accounts, List.mem_cons, List.mem_singleton, List.not_mem_nil, or_false] at ha
  rcases ha with h | h <;> subst h
  · exact ⟨⟨"John Doe", rfl, by decide⟩, ⟨"john@example.com", rfl, by decide⟩⟩
  · exact ⟨⟨"Jane Smith", rfl, by decide⟩, ⟨"jane@example.com", rfl, by decide⟩⟩

/-- C10. When the name and the email of every request are text (or missing),
every record of every store reached from the seed by a finite sequence of
requests has a non-empty text as name and as email: `POST` rejects a name or
email that is empty or missing, and `PUT` leaves the stored name (email) in
place when the supplied one is the empty text. -/
theorem nonempty_name_email (requests : List Request)
    (htext : ∀ r ∈ requests, r.textual) :
    (∀ a ∈ run accounts requests, NonEmptyText a.name ∧ NonEmptyText a.email) ∧
    (∀ (store : List Account) (body : Body),
      body.name = .string "" ∨ body.email = .string "" →
      postAccount store body =
        ({ status := 400, success := false,
           message := "Please provide name, balance, and email", data := none }, store)) ∧
    (∀ (account : Account) (body : Body),
      (body.name = .string "" → (applyBody account body).name = account.name) ∧
      (body.email = .string "" → (applyBody account body).email = account.email)) := by
  refine ⟨nonEmpty_run accounts requests htext nonEmpty_seed, ?_, ?_⟩
  · intro store body h
    apply postAccount_of_invalid
    rcases h with h | h
    · left; rw [h]; rfl
    · right; right; rw [h]; rfl
  · intro account body
    constructor
    · intro h; rw [applyBody_name, h]; simp [truthy]
    · intro h; rw [applyBody_email, h]; simp [truthy]

/-- C10 along a concrete sequence on the seed: a creation with an empty name is
rejected, an update with an empty name keeps the stored name. -/
theorem nonempty_name_email_witness :
    (∀ r ∈ [Request.create ⟨.string "", .number 1, .string "x@x.com"⟩,
        .update (some 1) ⟨.string "", .number 3, .string "new@x.com"⟩,
        .create ⟨.string "A", .number 0, .string "a@x.com"⟩, .delete (some 2)],
      r.textual) ∧
    (∀ a ∈ run accounts
        [.create ⟨.string "", .number 1, .string "x@x.com"⟩,
         .update (some 1) ⟨.string "", .number 3, .string "new@x.com"⟩,
         .create ⟨.string "A", .number 0, .string "a@x.com"⟩, .delete (some 2)],
      NonEmptyText a.name ∧ NonEmptyText a.email) ∧
    run accounts
        [.create ⟨.string "", .number 1, .string "x@x.com"⟩,
         .update (some 1) ⟨.string "", .number 3, .string "new@x.com"⟩,
         .create ⟨.string "A", .number 0, .string "a@x.com"⟩, .delete (some 2)] =
      [ { id := 1, name := .string "John Doe", balance := .number 3,
          email := .string "new@x.com" },
        { id := 3, name := .string "A", balance := .number 0,
          email := .string "a@x.com" } ] := by
  have htext : ∀ r ∈ [Request.create ⟨.string "", .number 1, .string "x@x.com"⟩,
      .update (some 1) ⟨.string "", .number 3, .string "new@x.com"⟩,
      .create ⟨.string "A", .number 0, .string "a@x.com"⟩, .delete (some 2)],
      r.textual := by
    intro r hr
    simp only [List.mem_cons, List.mem_singleton, List.not_mem_nil, or_false] at hr
    rcases hr with h | h | h | h <;> subst h
    · exact ⟨Or.inr ⟨_, rfl⟩, Or.inr ⟨_, rfl⟩⟩
    · exact ⟨Or.inr ⟨_, rfl⟩, Or.inr ⟨_, rfl⟩⟩
    · exact ⟨Or.inr ⟨_, rfl⟩, Or.inr ⟨_, rfl⟩⟩
    · trivial
  exact ⟨htext, (nonempty_name_email _ htext).1, by decide⟩

end BankApplication
